import Mathlib

set_option maxHeartbeats 1000000
set_option linter.unusedVariables false

/-!
Shallow embedding of the abrupng ABR brush decoders: the legacy decoder
(src/abr/abr12.rs), the generation-6 decoder (src/abr/abr6.rs), and the
shared position/RLE helpers they call (the helper module itself is not in
the repository snapshot; it is modelled from the specification, as marked
on each such definition).

Bytes are natural numbers (below 256 in any real stream); u16/u32/u64
arithmetic is carried out on Nat, with explicit wrap-around (mod 2^w)
exactly where the source performs wrapping machine arithmetic.
-/

/-- Decidable equality of `Except` results, for evaluating the decoders on
concrete inputs. -/
instance [DecidableEq ε] [DecidableEq α] : DecidableEq (Except ε α) := fun x y =>
  match x, y with
  | .ok a, .ok b =>
    if h : a = b then .isTrue (by rw [h]) else .isFalse (fun hh => h (by injection hh))
  | .error a, .error b =>
    if h : a = b then .isTrue (by rw [h]) else .isFalse (fun hh => h (by injection hh))
  | .ok _, .error _ => .isFalse (fun hh => Except.noConfusion hh)
  | .error _, .ok _ => .isFalse (fun hh => Except.noConfusion hh)

/-- A seekable, readable byte source: the underlying bytes plus the current
read position. Models the `R: Read + Seek` reader owned by each decoder. -/
structure ByteStream where
  data : List Nat
  pos : Nat
deriving DecidableEq

/-- Failure of an underlying read: the stream ended before the requested
bytes were available. This is the one observable `io::Error` /
`byteorder::Error` in the model (seeks to arbitrary non-negative offsets
always succeed, as they do on files and cursors). -/
inductive ReadError where
  | unexpectedEof
deriving DecidableEq

/-- Reader computations: a Rust method taking `&mut R` and returning
`Result<A, E>` becomes a function from a stream to a result paired with the
stream afterwards. On error the position is left where the failure was
detected; no caller observes it, because every decoder call re-seeks. -/
def Pm (ε α : Type) : Type := ByteStream → Except ε α × ByteStream

/-- Monadic return for reader computations. -/
def Pm.pure (a : α) : Pm ε α := fun s => (.ok a, s)

/-- Monadic sequencing for reader computations: `try!`-style propagation. -/
def Pm.bind (m : Pm ε α) (f : α → Pm ε β) : Pm ε β := fun s =>
  match m s with
  | (.ok a, s') => f a s'
  | (.error e, s') => (.error e, s')

instance : Monad (Pm ε) where
  pure := Pm.pure
  bind := Pm.bind

/-- Abort with error `e`, leaving the stream untouched. -/
def Pm.throwErr (e : ε) : Pm ε α := fun s => (.error e, s)

/-- `rdr.read_u8()`: one byte at the current position. -/
def readU8 : Pm ReadError Nat := fun s =>
  match s.data.drop s.pos with
  | [] => (.error .unexpectedEof, s)
  | b :: _ => (.ok b, ⟨s.data, s.pos + 1⟩)

/-- `rdr.read_exact(&mut buf)` with `buf.len() = n`: exactly `n` bytes or an
unexpected-EOF error. -/
def readExactN (n : Nat) : Pm ReadError (List Nat) := fun s =>
  if n ≤ (s.data.drop s.pos).length then
    (.ok ((s.data.drop s.pos).take n), ⟨s.data, s.pos + n⟩)
  else
    (.error .unexpectedEof, s)

/-- `rdr.read_u16::<BigEndian>()`. -/
def readU16 : Pm ReadError Nat := do
  let hi ← readU8
  let lo ← readU8
  Pm.pure (hi * 256 + lo)

/-- `rdr.read_u32::<BigEndian>()`. -/
def readU32 : Pm ReadError Nat := do
  let hi ← readU16
  let lo ← readU16
  Pm.pure (hi * 65536 + lo)

/-- `rdr.seek(SeekFrom::Start(p))`. -/
def seekAbs (p : Nat) : Pm ReadError Unit := fun s => (.ok (), ⟨s.data, p⟩)

/-- `rdr.seek(SeekFrom::Current(off))` for the non-negative offsets the
decoders use. -/
def seekCur (off : Nat) : Pm ReadError Unit := fun s => (.ok (), ⟨s.data, s.pos + off⟩)

/-- Modelled from the spec: the shared Position Helper (`util::tell` /
`helper::tell`, not under src/) reports the current offset in the byte
source. On a seekable stream it cannot fail. -/
def tell : Pm ReadError Nat := fun s => (.ok s.pos, s)

/-- Errors produced while opening a decoder (`OpenError` lives in the abr
module root, not under src/; its two constructors are the ones the sources
and the spec use: propagated I/O failure, and the generation-6
section-discovery failure `Found8bim`). -/
inductive OpenError where
  | ioError : ReadError → OpenError
  | found8bim
deriving DecidableEq

/-- Errors produced while decoding one brush (`BrushError` lives in the abr
module root, not under src/; the constructors are those the sources
construct, plus the decompression-size-mismatch error the spec's taxonomy
names for the RLE codec). -/
inductive BrushError where
  | ioError : ReadError → BrushError
  | unsupportedBrushType : Nat → BrushError
  | unsupportedBitDepth : Nat → BrushError
  | rleSizeMismatch : Nat → Nat → BrushError
deriving DecidableEq

/-- Lift a reader step into a brush-decoding computation, converting an I/O
error as the Rust `From<io::Error> for BrushError` instance does. -/
def liftRead (m : Pm ReadError α) : Pm BrushError α := fun s =>
  match m s with
  | (.ok a, s') => (.ok a, s')
  | (.error e, s') => (.error (.ioError e), s')

/-- The legacy brush record (the `ImageBrush` of abr12). -/
structure ImageBrush where
  width : Nat
  height : Nat
  depth : Nat
  data : List Nat
deriving DecidableEq

/-- The generation-6 brush record (the `SampleBrush` of abr6; structurally
identical to `ImageBrush`). -/
structure SampleBrush where
  width : Nat
  height : Nat
  depth : Nat
  data : List Nat
deriving DecidableEq

/-- u16 wrapping subtraction: release-mode semantics of the source
expression `right - left` on `u16` operands. -/
def sub16 (a b : Nat) : Nat := (a + 65536 - b) % 65536

/-- u32 wrapping subtraction: release-mode semantics of the source
expression `right - left` on `u32` operands. -/
def sub32 (a b : Nat) : Nat := (a + 4294967296 - b) % 4294967296

namespace Util

/-- Modelled from the spec: one packet-decoding pass of the shared RLE codec
(`util::read_rle_data` / `helper::read_rle_data`, a module not under src/).
`budget` is the number of compressed bytes framed for the current scanline;
packets are consumed while compressed bytes remain, using the standard
PackBits convention: a control byte `c ≤ 127` means `c+1` literal bytes
follow verbatim; `c = 128` (i.e. −128 as a signed byte) is a no-op; any
other `c` (signed negative) means `257 − c` (= `1 − (c − 256)`) repetitions
of the single byte that follows. A packet whose payload overruns the framed
budget simply ends the scanline, as a `while consumed < budget` loop does. -/
def decodePackets (budget : Nat) : Pm BrushError (List Nat) :=
  if h : budget = 0 then
    Pm.pure []
  else do
    let c ← liftRead readU8
    if c ≤ 127 then do
      let lits ← liftRead (readExactN (c + 1))
      let rest ← decodePackets (budget - (1 + (c + 1)))
      Pm.pure (lits ++ rest)
    else if c = 128 then
      decodePackets (budget - 1)
    else do
      let v ← liftRead readU8
      let rest ← decodePackets (budget - 2)
      Pm.pure (List.replicate (257 - c) v ++ rest)
termination_by budget
decreasing_by
  all_goals omega

/-- Modelled from the spec: the per-scanline loop of the shared RLE codec.
Each of the `n` scanlines is independently framed by its own 16-bit
big-endian compressed-byte count, followed by that scanline's packet
stream. -/
def decodeScanlines : Nat → Pm BrushError (List Nat)
  | 0 => Pm.pure []
  | n + 1 => do
    let clen ← liftRead readU16
    let line ← decodePackets clen
    let rest ← decodeScanlines n
    Pm.pure (line ++ rest)

/-- Modelled from the spec: the shared RLE codec entry point
(`util::read_rle_data` / `helper::read_rle_data`, not under src/). Given a
source positioned at the start of compressed data, a scanline count and a
target total byte count, it produces exactly that many decompressed bytes
or fails; a mismatch between produced bytes and the target is a
decompression error, never a silently truncated or padded buffer. -/
def read_rle_data (scanlines : Nat) (size : Nat) : Pm BrushError (List Nat) := do
  let out ← decodeScanlines scanlines
  if out.length = size then
    Pm.pure out
  else
    Pm.throwErr (.rleSizeMismatch out.length size)

end Util

/-- Big-endian encoding of a 16-bit value as two bytes. -/
def u16be (n : Nat) : List Nat := [n / 256 % 256, n % 256]

/-- Big-endian encoding of a 32-bit value as four bytes. -/
def u32be (n : Nat) : List Nat :=
  [n / 16777216 % 256, n / 65536 % 256, n / 256 % 256, n % 256]

namespace Util

/-- Modelled from the spec: `PackBitsEncodes packets raw` says the byte
sequence `packets` is a standard PackBits encoding of `raw` — a control
byte `c ≤ 127` (signed non-negative) is followed by `c + 1` literal bytes,
`c = 128` (signed −128) is a no-op, and `129 ≤ c ≤ 255` (signed negative)
is followed by one byte repeated `257 − c = 1 − (c − 256)` times. Every
output of every conforming PackBits compressor satisfies this. -/
inductive PackBitsEncodes : List Nat → List Nat → Prop where
  | nil : PackBitsEncodes [] []
  | literal (lits rest raw : List Nat) (c : Nat) (hc : c ≤ 127)
      (hl : lits.length = c + 1) (h : PackBitsEncodes rest raw) :
      PackBitsEncodes (c :: (lits ++ rest)) (lits ++ raw)
  | noop (rest raw : List Nat) (h : PackBitsEncodes rest raw) :
      PackBitsEncodes (128 :: rest) raw
  | run (b : Nat) (rest raw : List Nat) (c : Nat) (hc1 : 129 ≤ c) (hc2 : c ≤ 255)
      (h : PackBitsEncodes rest raw) :
      PackBitsEncodes (c :: b :: rest) (List.replicate (257 - c) b ++ raw)

/-- Modelled from the spec: the framed compressed form of a list of
scanlines, as the codec reads it — for each scanline (given as its packet
stream paired with its raw bytes), the 16-bit big-endian byte
count of the packet stream followed by the packet stream itself. -/
def rleFramed (ls : List (List Nat × List Nat)) : List Nat :=
  (ls.map (fun p => u16be p.1.length ++ p.1)).flatten

end Util

namespace Abr12

/-- The legacy decoder state (the `Decoder<R>` of abr12). -/
structure Decoder where
  rdr : ByteStream
  version : Nat
  count : Nat
  next_brush_pos : Nat
deriving DecidableEq

/-- The abr12 `open`: record the current position as the offset of the
first brush. (`open` is a Lean keyword, hence the name.) In the model `tell`
cannot fail, so the result is always `ok`. -/
def openDecoder (rdr : ByteStream) (version count : Nat) : Except OpenError Decoder :=
  .ok ⟨rdr, version, count, rdr.pos⟩

/-- The `BrushHeadResult` of abr12. -/
structure BrushHeadResult where
  next_brush_pos : Nat
deriving DecidableEq

/-- The abr12 `do_brush_head`: seek to the brush, read its 16-bit length and
return where the brush after this one is located. -/
def do_brush_head (dec : Decoder) : Except ReadError BrushHeadResult × ByteStream :=
  (do
    seekAbs dec.next_brush_pos
    let len ← readU16
    Pm.pure (BrushHeadResult.mk ((dec.next_brush_pos + 2) + len))) dec.rdr

/-- The abr12 `do_brush_body`: with the stream positioned by `do_brush_head`,
read out a brush. -/
def do_brush_body (version : Nat) : Pm BrushError ImageBrush := do
  let ty ← liftRead readU16
  if ty ≠ 2 then
    Pm.throwErr (.unsupportedBrushType ty)
  else do
    let _misc ← liftRead readU32
    let _spacing ← liftRead readU16
    let _nameSkip ← (if version = 2 then
        Pm.bind (liftRead readU32) (fun len => liftRead (seekCur (2 * len)))
      else
        Pm.pure ())
    let _antialiasing ← liftRead readU8
    let top ← liftRead readU16
    let left ← liftRead readU16
    let bottom ← liftRead readU16
    let right ← liftRead readU16
    let _topl ← liftRead readU32
    let _leftl ← liftRead readU32
    let _bottoml ← liftRead readU32
    let _rightl ← liftRead readU32
    let depth ← liftRead readU16
    if depth ≠ 8 then
      Pm.throwErr (.unsupportedBitDepth depth)
    else do
      let compressedByte ← liftRead readU8
      let compressed : Bool := compressedByte != 0
      let width := sub16 right left
      let height := sub16 bottom top
      let size := width * height * (depth >>> 3)
      let data ← (if compressed then
          Util.read_rle_data height size
        else
          liftRead (readExactN size))
      Pm.pure (ImageBrush.mk width height depth data)

/-- The abr12 `next_brush`: exhaustion when the remaining count is zero;
otherwise decrement, navigate via `do_brush_head` (zeroing the count on
navigation failure), commit the next offset and parse the body. -/
def next_brush (dec : Decoder) : Option (Except BrushError ImageBrush) × Decoder :=
  if dec.count = 0 then
    (none, dec)
  else
    -- `dec.count -= 1` happens before `do_brush_head` runs; the head only
    -- touches `rdr` and `next_brush_pos`.
    match do_brush_head { dec with count := dec.count - 1 } with
    | (.ok res, s1) =>
      -- Commit `res.next_brush_pos`, then parse the body from `s1`.
      (some (do_brush_body dec.version s1).1,
        ⟨(do_brush_body dec.version s1).2, dec.version, dec.count - 1, res.next_brush_pos⟩)
    | (.error e, s1) =>
      -- No next position: flag the iteration as over before erroring out.
      (some (.error (.ioError e)), ⟨s1, dec.version, 0, dec.next_brush_pos⟩)

/-- The decoder state after `n` successive `next_brush` calls. -/
def runCalls (dec : Decoder) : Nat → Decoder
  | 0 => dec
  | n + 1 => runCalls (next_brush dec).2 n

end Abr12

namespace Abr6

/-- The generation-6 decoder state (the `Abr6Decoder<R>` of abr6). -/
structure Decoder where
  rdr : ByteStream
  subversion : Nat
  sample_section_end : Nat
  next_brush_pos : Nat
deriving DecidableEq

/-- The byte signature `8bim` checked first in each resource block. -/
def tag8bim : List Nat := [56, 98, 105, 109]

/-- The byte signature `samp` marking the sample section. -/
def tagSamp : List Nat := [115, 97, 109, 112]

/-- The section-discovery loop of the abr6 `open`: at each block read a 4-byte
signature (failing with `Found8bim` on `8bim`), a 4-byte tag (`samp` ends
the scan, yielding the position just after it), else a 32-bit length and a
relative seek over the block payload. -/
def findSamp (data : List Nat) (pos : Nat) : Except OpenError Nat :=
  match readExactN 4 ⟨data, pos⟩ with
  | (.error e, _) => .error (.ioError e)
  | (.ok sig, _) =>
    if sig = tag8bim then
      .error .found8bim
    else
      match readExactN 4 ⟨data, pos + 4⟩ with
      | (.error e, _) => .error (.ioError e)
      | (.ok tg, _) =>
        if tg = tagSamp then
          .ok (pos + 8)
        else
          match hlen : readU32 ⟨data, pos + 8⟩ with
          | (.error e, _) => .error (.ioError e)
          | (.ok len, _) => findSamp data (pos + 12 + len)
termination_by data.length - pos
decreasing_by
  have hsplit : ∀ {α β : Type} {m : Pm ReadError α} {f : α → Pm ReadError β}
      {s : ByteStream} {b : β} {s' : ByteStream},
      Pm.bind m f s = (.ok b, s') → ∃ a s1, m s = (.ok a, s1) ∧ f a s1 = (.ok b, s') := by
    intro α β m f s b s' h
    unfold Pm.bind at h
    split at h
    next a s1 heq => exact ⟨a, s1, heq, h⟩
    next e s1 heq => exact absurd h (by simp)
  have h8 : ∀ {s : ByteStream} {x : Nat} {s' : ByteStream},
      readU8 s = (.ok x, s') → s.pos < s.data.length ∧ s' = ⟨s.data, s.pos + 1⟩ := by
    intro s x s' h
    unfold readU8 at h
    cases hd : s.data.drop s.pos with
    | nil => rw [hd] at h; exact absurd h (by simp)
    | cons b t =>
      rw [hd] at h
      have hl : 0 < (s.data.drop s.pos).length := by rw [hd]; simp
      rw [List.length_drop] at hl
      injection h with h1 h2
      exact ⟨by omega, h2.symm⟩
  have h16 : ∀ {s : ByteStream} {x : Nat} {s' : ByteStream},
      readU16 s = (.ok x, s') → s.pos + 2 ≤ s.data.length ∧ s' = ⟨s.data, s.pos + 2⟩ := by
    intro s x s' h
    unfold readU16 at h
    obtain ⟨a1, t1, hx1, h⟩ := hsplit h
    obtain ⟨a2, t2, hx2, h⟩ := hsplit h
    obtain ⟨hb1, ht1⟩ := h8 hx1
    obtain ⟨hb2, ht2⟩ := h8 hx2
    subst ht1
    simp only at hb2 ht2
    subst ht2
    unfold Pm.pure at h
    injection h with h1 h2
    exact ⟨by omega, h2.symm⟩
  have h32 : pos + 8 + 4 ≤ data.length := by
    unfold readU32 at hlen
    obtain ⟨a1, t1, hx1, hlen⟩ := hsplit hlen
    obtain ⟨a2, t2, hx2, hlen⟩ := hsplit hlen
    obtain ⟨hb1, ht1⟩ := h16 hx1
    obtain ⟨hb2, ht2⟩ := h16 hx2
    subst ht1
    simp only at hb2
    exact hb2
  omega

/-- The abr6 `open`: discover the sample section, read its 32-bit length,
record the section end and position the first brush right after the length
field. (`open` is a Lean keyword, hence the name.) -/
def openDecoder (rdr : ByteStream) (subversion : Nat) : Except OpenError Decoder :=
  match findSamp rdr.data rdr.pos with
  | .error e => .error e
  | .ok p8 =>
    match readU32 ⟨rdr.data, p8⟩ with
    | (.error e, _) => .error (.ioError e)
    | (.ok len, s) => .ok ⟨s, subversion, s.pos + len, s.pos⟩

/-- Round `n` down to a multiple of 4: the source writes `n & !3`, which clears
the two low bits. -/
def trunc4 (n : Nat) : Nat := n / 4 * 4

/-- The abr6 `process_brush_length`: seek to the brush, read its 32-bit
length, and return the 4-byte-aligned position where the next brush
starts. -/
def process_brush_length (dec : Decoder) : Except ReadError Nat × ByteStream :=
  (do
    seekAbs dec.next_brush_pos
    let len ← readU32
    Pm.pure (trunc4 (((dec.next_brush_pos + 4) + len) + 3))) dec.rdr

/-- The abr6 `process_brush_body`: skip the sub-variant-dependent header
region, then bounds, depth, compression flag and pixel data. -/
def process_brush_body (subversion : Nat) : Pm BrushError SampleBrush := do
  liftRead (seekCur (if subversion = 1 then 47 else 301))
  let top ← liftRead readU32
  let left ← liftRead readU32
  let bottom ← liftRead readU32
  let right ← liftRead readU32
  let depth ← liftRead readU16
  if depth ≠ 8 then
    Pm.throwErr (.unsupportedBitDepth depth)
  else do
    let compressedByte ← liftRead readU8
    let compressed : Bool := compressedByte != 0
    let width := sub32 right left
    let height := sub32 bottom top
    let size := width * height * (depth >>> 3)
    let data ← (if compressed then
        Util.read_rle_data height size
      else
        liftRead (readExactN size))
    Pm.pure (SampleBrush.mk width height depth data)

/-- The abr6 `next_brush`: exhaustion once the next-brush offset has reached
the sample-section end; otherwise compute and commit the next offset
(jumping to the section end on failure) and parse the body. -/
def next_brush (dec : Decoder) : Option (Except BrushError SampleBrush) × Decoder :=
  if dec.next_brush_pos ≥ dec.sample_section_end then
    (none, dec)
  else
    match process_brush_length dec with
    | (.ok np, s1) =>
      -- Commit `np`, then parse the body from `s1`.
      (some (process_brush_body dec.subversion s1).1,
        ⟨(process_brush_body dec.subversion s1).2, dec.subversion, dec.sample_section_end, np⟩)
    | (.error e, s1) =>
      -- Flag the iteration as over by jumping to the end of the section.
      (some (.error (.ioError e)), ⟨s1, dec.subversion, dec.sample_section_end, dec.sample_section_end⟩)

/-- The decoder state after `n` successive `next_brush` calls. -/
def runCalls (dec : Decoder) : Nat → Decoder
  | 0 => dec
  | n + 1 => runCalls (next_brush dec).2 n

end Abr6

namespace Abr12

/-- Two legacy decoders that follow the same course: same underlying bytes,
version, remaining count and next-brush offset. Their read positions may
differ — every `next_brush` call re-seeks before reading, so the position
never influences later behaviour. -/
def sameCourse (d1 d2 : Decoder) : Prop :=
  d1.rdr.data = d2.rdr.data ∧ d1.version = d2.version ∧
    d1.count = d2.count ∧ d1.next_brush_pos = d2.next_brush_pos

end Abr12

namespace Abr6

/-- Two generation-6 decoders that follow the same course: same underlying
bytes, sub-variant, section end and next-brush offset (read positions may
differ). -/
def sameCourse (d1 d2 : Decoder) : Prop :=
  d1.rdr.data = d2.rdr.data ∧ d1.subversion = d2.subversion ∧
    d1.sample_section_end = d2.sample_section_end ∧
    d1.next_brush_pos = d2.next_brush_pos

/-- A resource block as the section-discovery loop of `openDecoder` walks
it: a 4-byte signature, a 4-byte tag, and a payload preceded by its 32-bit
length. -/
structure RsrcBlock where
  sig : List Nat
  tag : List Nat
  payload : List Nat

/-- The serialized bytes of one resource block. -/
def blockBytes (b : RsrcBlock) : List Nat :=
  b.sig ++ b.tag ++ u32be b.payload.length ++ b.payload

/-- The serialized bytes of a run of resource blocks. -/
def blocksBytes (bs : List RsrcBlock) : List Nat := (bs.map blockBytes).flatten

/-- A block the discovery loop skips: well-formed field widths, signature
not `8bim`, tag not `samp`, payload length expressible in 32 bits. -/
def skippable (b : RsrcBlock) : Prop :=
  b.sig.length = 4 ∧ b.tag.length = 4 ∧ b.sig ≠ tag8bim ∧ b.tag ≠ tagSamp ∧
    b.payload.length < 4294967296

end Abr6

/-- Input for the C7 scenario: a version-2 legacy stream declaring one
brush. Layout: 16-bit record length (44), type tag 2, 4 + 2 skipped bytes,
32-bit name length 0, anti-aliasing byte, 16-bit bounds top 0 left 0
bottom 2 right 2, four discarded 32-bit long bounds, depth 8, compression
flag 0, then the four raw pixel bytes 10, 20, 30, 40. -/
def c7bytes : List Nat :=
  [0, 44,
   0, 2,
   0, 0, 0, 0,
   0, 0,
   0, 0, 0, 0,
   0,
   0, 0,  0, 0,  0, 2,  0, 2,
   0, 0, 0, 0,  0, 0, 0, 0,  0, 0, 0, 0,  0, 0, 0, 0,
   0, 8,
   0,
   10, 20, 30, 40]

/-- Input refuting C2 as stated: one skipped resource block with a 1-byte
payload displaces the sample section so its body starts at offset 25, which
is not 4-byte aligned. The sample section declares length 20 (so it ends at
45) and its first brush record declares length 0. -/
def c2bytes : List Nat :=
  [65, 65, 65, 65,  66, 66, 66, 66,  0, 0, 0, 1,  0,
   67, 67, 67, 67,  115, 97, 109, 112,  0, 0, 0, 20,
   0, 0, 0, 0]

/-- Input for C9, legacy side: a version-1 brush body with inverted
horizontal bounds — top 0, left 1, bottom 0, right 0 — depth 8,
uncompressed. Layout: type tag 2, 4 + 2 skipped bytes, anti-aliasing byte,
16-bit bounds, four discarded long bounds, depth, compression flag. -/
def c9bytes12 : List Nat :=
  [0, 2,
   0, 0, 0, 0,
   0, 0,
   0,
   0, 0,  0, 1,  0, 0,  0, 0,
   0, 0, 0, 0,  0, 0, 0, 0,  0, 0, 0, 0,  0, 0, 0, 0,
   0, 8,
   0]

/-- Input for C9, generation-6 side: 47 skipped header bytes (sub-variant
1), then 32-bit bounds top 0, left 1, bottom 0, right 0, depth 8,
uncompressed. -/
def c9bytes6 : List Nat :=
  List.replicate 47 0 ++
  [0, 0, 0, 0,  0, 0, 0, 1,  0, 0, 0, 0,  0, 0, 0, 0,
   0, 8,
   0]

theorem Pm.bind_apply (m : Pm ε α) (f : α → Pm ε β) (s : ByteStream) :
    (m >>= f) s = match m s with
      | (.ok a, s') => f a s'
      | (.error e, s') => (.error e, s') := rfl

theorem Pm.pure_apply (a : α) (s : ByteStream) :
    (Pure.pure a : Pm ε α) s = (.ok a, s) := rfl


/-- A successful one-byte read consumes exactly one in-bounds byte. -/
theorem readU8_ok_bound {s : ByteStream} {x : Nat} {s' : ByteStream}
    (h : readU8 s = (.ok x, s')) :
    s.pos < s.data.length ∧ s' = ⟨s.data, s.pos + 1⟩ := by
  unfold readU8 at h
  cases hd : s.data.drop s.pos with
  | nil => rw [hd] at h; exact absurd h (by simp)
  | cons b t =>
    rw [hd] at h
    have hlen : 0 < (s.data.drop s.pos).length := by rw [hd]; simp
    rw [List.length_drop] at hlen
    refine ⟨by omega, ?_⟩
    injection h with h1 h2
    exact h2.symm ▸ rfl

/-- Inversion for a successful bind: the first computation succeeded and
the continuation ran on its output. -/
theorem Pm.bind_eq_ok {m : Pm ε α} {f : α → Pm ε β} {s : ByteStream} {b : β}
    {s' : ByteStream} (h : (m >>= f) s = (.ok b, s')) :
    ∃ a s1, m s = (.ok a, s1) ∧ f a s1 = (.ok b, s') := by
  have h2 : Pm.bind m f s = (.ok b, s') := h
  unfold Pm.bind at h2
  split at h2
  next a s1 heq => exact ⟨a, s1, heq, h2⟩
  next e s1 heq => exact absurd h2 (by simp)

/-- Inversion for a successful `Pm.pure`. -/
theorem Pm.pure_eq_ok {a : α} {s : ByteStream} {b : α} {s' : ByteStream}
    (h : (Pm.pure a : Pm ε α) s = (.ok b, s')) : b = a ∧ s' = s := by
  unfold Pm.pure at h
  injection h with h1 h2
  exact ⟨(by injection h1 with h3; exact h3.symm), h2.symm⟩

/-- A successful 16-bit read consumes exactly two in-bounds bytes. -/
theorem readU16_ok_bound {s : ByteStream} {x : Nat} {s' : ByteStream}
    (h : readU16 s = (.ok x, s')) :
    s.pos + 2 ≤ s.data.length ∧ s' = ⟨s.data, s.pos + 2⟩ := by
  unfold readU16 at h
  obtain ⟨a, s1, h1, h⟩ := Pm.bind_eq_ok h
  obtain ⟨b, s2, h2, h⟩ := Pm.bind_eq_ok h
  obtain ⟨hb1, hs1⟩ := readU8_ok_bound h1
  obtain ⟨hb2, hs2⟩ := readU8_ok_bound h2
  obtain ⟨hv, hs⟩ := Pm.pure_eq_ok h
  subst hs1
  simp only at hb2 hs2
  subst hs2
  exact ⟨by omega, by rw [hs]⟩

/-- A successful 32-bit read consumes exactly four in-bounds bytes. -/
theorem readU32_ok_bound {s : ByteStream} {x : Nat} {s' : ByteStream}
    (h : readU32 s = (.ok x, s')) :
    s.pos + 4 ≤ s.data.length ∧ s' = ⟨s.data, s.pos + 4⟩ := by
  unfold readU32 at h
  obtain ⟨a, s1, h1, h⟩ := Pm.bind_eq_ok h
  obtain ⟨b, s2, h2, h⟩ := Pm.bind_eq_ok h
  obtain ⟨hb1, hs1⟩ := readU16_ok_bound h1
  obtain ⟨hb2, hs2⟩ := readU16_ok_bound h2
  obtain ⟨hv, hs⟩ := Pm.pure_eq_ok h
  subst hs1
  simp only at hb2 hs2
  subst hs2
  exact ⟨by omega, by rw [hs, show s.pos + 2 + 2 = s.pos + 4 by omega]⟩


/-- Running `readU8` at a position where the remaining bytes are known. -/
theorem run_readU8 (a b : List Nat) (x : Nat) :
    readU8 ⟨a ++ x :: b, a.length⟩ = (.ok x, ⟨a ++ x :: b, a.length + 1⟩) := by
  unfold readU8
  simp only [List.drop_left]

/-- Running `readExactN` at a position where the remaining bytes are known. -/
theorem run_readExactN (a b c : List Nat) (n : Nat) (hb : b.length = n) :
    readExactN n ⟨a ++ b ++ c, a.length⟩ = (.ok b, ⟨a ++ b ++ c, a.length + n⟩) := by
  unfold readExactN
  simp only [List.append_assoc, List.drop_left]
  rw [if_pos (by simp [← hb])]
  subst hb
  rw [List.take_left]

/-- Run a bind forward: if the first computation yields `a` at state `s1`
and the continuation at `a, s1` yields `r`, the bind at `s` yields `r`. -/
theorem Pm.run_bind {m : Pm ε α} {f : α → Pm ε β} {s : ByteStream} {a : α}
    {s1 : ByteStream} {r : Except ε β × ByteStream}
    (h1 : m s = (.ok a, s1)) (h2 : f a s1 = r) : (m >>= f) s = r := by
  show Pm.bind m f s = r
  unfold Pm.bind
  rw [h1]
  exact h2

/-- Running `readU16` at a position where the remaining bytes are known. -/
theorem run_readU16 (a b : List Nat) (x y : Nat) :
    readU16 ⟨a ++ x :: y :: b, a.length⟩ =
      (.ok (x * 256 + y), ⟨a ++ x :: y :: b, a.length + 2⟩) := by
  have h2 : readU8 ⟨a ++ x :: y :: b, a.length + 1⟩ =
      (.ok y, ⟨a ++ x :: y :: b, a.length + 1 + 1⟩) := by
    have := run_readU8 (a ++ [x]) b y
    simp only [List.append_assoc, List.cons_append, List.nil_append,
      List.length_append, List.length_cons, List.length_nil] at this
    exact this
  unfold readU16
  exact Pm.run_bind (run_readU8 a (y :: b) x) (Pm.run_bind h2 rfl)

/-- Running `readU32` at a position where the remaining bytes are known. -/
theorem run_readU32 (a b : List Nat) (x0 x1 x2 x3 : Nat) :
    readU32 ⟨a ++ x0 :: x1 :: x2 :: x3 :: b, a.length⟩ =
      (.ok ((x0 * 256 + x1) * 65536 + (x2 * 256 + x3)),
        ⟨a ++ x0 :: x1 :: x2 :: x3 :: b, a.length + 4⟩) := by
  have h2 : readU16 ⟨a ++ x0 :: x1 :: x2 :: x3 :: b, a.length + 2⟩ =
      (.ok (x2 * 256 + x3), ⟨a ++ x0 :: x1 :: x2 :: x3 :: b, a.length + 2 + 2⟩) := by
    have := run_readU16 (a ++ [x0, x1]) b x2 x3
    simp only [List.append_assoc, List.cons_append, List.nil_append,
      List.length_append, List.length_cons, List.length_nil] at this
    exact this
  unfold readU32
  exact Pm.run_bind (run_readU16 a (x2 :: x3 :: b) x0 x1) (Pm.run_bind h2 rfl)

/-- Reading back a big-endian 16-bit encoding returns the encoded value. -/
theorem run_readU16_u16be (a b : List Nat) (n : Nat) (hn : n < 65536) :
    readU16 ⟨a ++ u16be n ++ b, a.length⟩ =
      (.ok n, ⟨a ++ u16be n ++ b, a.length + 2⟩) := by
  have := run_readU16 a b (n / 256 % 256) (n % 256)
  simp only [u16be, List.append_assoc, List.cons_append, List.nil_append] at this ⊢
  rw [this]
  have hv : n / 256 % 256 * 256 + n % 256 = n := by omega
  rw [hv]

/-- Reading back a big-endian 32-bit encoding returns the encoded value. -/
theorem run_readU32_u32be (a b : List Nat) (n : Nat) (hn : n < 4294967296) :
    readU32 ⟨a ++ u32be n ++ b, a.length⟩ =
      (.ok n, ⟨a ++ u32be n ++ b, a.length + 4⟩) := by
  have := run_readU32 a b (n / 16777216 % 256) (n / 65536 % 256) (n / 256 % 256) (n % 256)
  simp only [u32be, List.append_assoc, List.cons_append, List.nil_append] at this ⊢
  rw [this]
  have hv : (n / 16777216 % 256 * 256 + n / 65536 % 256) * 65536 +
      (n / 256 % 256 * 256 + n % 256) = n := by omega
  rw [hv]

/-- If the signature read yields `8bim`, section discovery fails with the
distinct `Found8bim` error. -/
theorem findSamp_8bim {data : List Nat} {pos : Nat} {s1 : ByteStream}
    (h1 : readExactN 4 ⟨data, pos⟩ = (.ok Abr6.tag8bim, s1)) :
    Abr6.findSamp data pos = .error .found8bim := by
  rw [Abr6.findSamp.eq_def]
  split
  next e s2 heq => rw [h1] at heq; exact absurd heq (by simp)
  next sig s2 heq =>
    rw [h1] at heq
    injection heq with ha hb
    injection ha with hc
    rw [if_pos hc.symm]

/-- If the signature is not `8bim` and the tag is `samp`, section discovery
succeeds just after the tag. -/
theorem findSamp_samp {data : List Nat} {pos : Nat} {sig : List Nat} {s1 s2 : ByteStream}
    (h1 : readExactN 4 ⟨data, pos⟩ = (.ok sig, s1)) (hsig : sig ≠ Abr6.tag8bim)
    (h2 : readExactN 4 ⟨data, pos + 4⟩ = (.ok Abr6.tagSamp, s2)) :
    Abr6.findSamp data pos = .ok (pos + 8) := by
  rw [Abr6.findSamp.eq_def]
  split
  next e s3 heq => rw [h1] at heq; exact absurd heq (by simp)
  next sig2 s3 heq =>
    rw [h1] at heq
    injection heq with ha hb
    injection ha with hc
    rw [if_neg (hc ▸ hsig)]
    split
    next e s4 heq2 => rw [h2] at heq2; exact absurd heq2 (by simp)
    next tg s4 heq2 =>
      rw [h2] at heq2
      injection heq2 with hd he
      injection hd with hf
      rw [if_pos hf.symm]

/-- A block whose signature is not `8bim` and whose tag is not `samp` is
skipped over using its 32-bit length. -/
theorem findSamp_skip {data : List Nat} {pos : Nat} {sig tg : List Nat}
    {len : Nat} {s1 s2 s3 : ByteStream}
    (h1 : readExactN 4 ⟨data, pos⟩ = (.ok sig, s1)) (hsig : sig ≠ Abr6.tag8bim)
    (h2 : readExactN 4 ⟨data, pos + 4⟩ = (.ok tg, s2)) (htg : tg ≠ Abr6.tagSamp)
    (h3 : readU32 ⟨data, pos + 8⟩ = (.ok len, s3)) :
    Abr6.findSamp data pos = Abr6.findSamp data (pos + 12 + len) := by
  rw [Abr6.findSamp.eq_def]
  split
  next e s4 heq => rw [h1] at heq; exact absurd heq (by simp)
  next sig2 s4 heq =>
    rw [h1] at heq
    injection heq with ha hb
    injection ha with hc
    rw [if_neg (hc ▸ hsig)]
    split
    next e s5 heq2 => rw [h2] at heq2; exact absurd heq2 (by simp)
    next tg2 s5 heq2 =>
      rw [h2] at heq2
      injection heq2 with hd he
      injection hd with hf
      rw [if_neg (hf ▸ htg)]
      split
      next e s6 heq3 => rw [h3] at heq3; exact absurd heq3 (by simp)
      next len2 s6 heq3 =>
        rw [h3] at heq3
        injection heq3 with hg hh
        injection hg with hi
        rw [hi]


/-- With the count exhausted, the legacy `next_brush` signals `none` and
leaves the decoder unchanged. -/
theorem abr12_next_brush_count_zero {dec : Abr12.Decoder} (h : dec.count = 0) :
    Abr12.next_brush dec = (none, dec) := by
  unfold Abr12.next_brush
  rw [if_pos h]

/-- With brushes remaining, the legacy `next_brush` always returns `some`. -/
theorem abr12_next_brush_isSome {dec : Abr12.Decoder} (h : dec.count ≠ 0) :
    ((Abr12.next_brush dec).1).isSome = true := by
  unfold Abr12.next_brush
  rw [if_neg h]
  split
  next res s1 heq => rfl
  next e s1 heq => rfl

/-- The success branch of the legacy `next_brush`: the count is
decremented, the computed next offset is committed, and the call returns
whatever the body parse produces. -/
theorem abr12_next_brush_head_ok {dec : Abr12.Decoder} {res : Abr12.BrushHeadResult}
    {s1 : ByteStream} (h0 : dec.count ≠ 0)
    (hh : Abr12.do_brush_head dec = (.ok res, s1)) :
    Abr12.next_brush dec = (some (Abr12.do_brush_body dec.version s1).1,
      ⟨(Abr12.do_brush_body dec.version s1).2, dec.version, dec.count - 1,
        res.next_brush_pos⟩) := by
  have hh2 : Abr12.do_brush_head { dec with count := dec.count - 1 } = (.ok res, s1) := hh
  unfold Abr12.next_brush
  rw [if_neg h0]
  split
  next res2 s2 heq =>
    rw [hh2] at heq
    injection heq with h1 h2
    injection h1 with h3
    subst h2
    subst h3
    rfl
  next e s2 heq =>
    rw [hh2] at heq
    exact absurd heq (by simp)

/-- The failure branch of the legacy `next_brush`: a navigation failure
zeroes the remaining count and surfaces the I/O error. -/
theorem abr12_next_brush_head_error {dec : Abr12.Decoder} {e : ReadError}
    {s1 : ByteStream} (h0 : dec.count ≠ 0)
    (hh : Abr12.do_brush_head dec = (.error e, s1)) :
    Abr12.next_brush dec =
      (some (.error (.ioError e)), ⟨s1, dec.version, 0, dec.next_brush_pos⟩) := by
  have hh2 : Abr12.do_brush_head { dec with count := dec.count - 1 } = (.error e, s1) := hh
  unfold Abr12.next_brush
  rw [if_neg h0]
  split
  next res2 s2 heq =>
    rw [hh2] at heq
    exact absurd heq (by simp)
  next e2 s2 heq =>
    rw [hh2] at heq
    injection heq with h1 h2
    injection h1 with h3
    subst h2
    subst h3
    rfl

/-- A legacy decoder with no brushes remaining never changes again. -/
theorem abr12_runCalls_count_zero {dec : Abr12.Decoder} (h : dec.count = 0) (n : Nat) :
    Abr12.runCalls dec n = dec := by
  induction n with
  | zero => rfl
  | succ n ih =>
    show Abr12.runCalls (Abr12.next_brush dec).2 n = dec
    rw [abr12_next_brush_count_zero h]
    exact ih

/-- Decomposing a run of legacy calls. -/
theorem abr12_runCalls_add (dec : Abr12.Decoder) (a b : Nat) :
    Abr12.runCalls dec (a + b) = Abr12.runCalls (Abr12.runCalls dec b) a := by
  induction b generalizing dec with
  | zero => rfl
  | succ b ih =>
    show Abr12.runCalls (Abr12.next_brush dec).2 (a + b) =
      Abr12.runCalls (Abr12.runCalls (Abr12.next_brush dec).2 b) a
    exact ih _

/-- `do_brush_head` depends only on the underlying bytes and the committed
next-brush offset — it seeks before reading. -/
theorem abr12_do_brush_head_congr {d1 d2 : Abr12.Decoder}
    (hd : d1.rdr.data = d2.rdr.data) (hn : d1.next_brush_pos = d2.next_brush_pos) :
    Abr12.do_brush_head d1 = Abr12.do_brush_head d2 := by
  cases d1 with | mk r1 v1 c1 n1 =>
  cases d2 with | mk r2 v2 c2 n2 =>
  cases r1 with | mk data1 p1 =>
  cases r2 with | mk data2 p2 =>
  simp only at hd hn
  subst hd
  subst hn
  rfl

/-- One legacy call preserves `sameCourse` and produces the same result on
both decoders. -/
theorem abr12_next_brush_congr {d1 d2 : Abr12.Decoder} (h : Abr12.sameCourse d1 d2) :
    (Abr12.next_brush d1).1 = (Abr12.next_brush d2).1 ∧
      Abr12.sameCourse (Abr12.next_brush d1).2 (Abr12.next_brush d2).2 := by
  obtain ⟨hd, hv, hc, hn⟩ := h
  cases d1 with | mk r1 v1 c1 n1 =>
  cases d2 with | mk r2 v2 c2 n2 =>
  cases r1 with | mk data1 p1 =>
  cases r2 with | mk data2 p2 =>
  simp only at hd hv hc hn
  subst hd
  subst hv
  subst hc
  subst hn
  by_cases h0 : c1 = 0
  · rw [abr12_next_brush_count_zero h0, abr12_next_brush_count_zero h0]
    exact ⟨rfl, rfl, rfl, rfl, rfl⟩
  · rcases hh : Abr12.do_brush_head ⟨⟨data1, p1⟩, v1, c1, n1⟩ with ⟨r, s1⟩
    have hh2 : Abr12.do_brush_head ⟨⟨data1, p2⟩, v1, c1, n1⟩ = (r, s1) :=
      (abr12_do_brush_head_congr rfl rfl).trans hh
    cases r with
    | ok res =>
      rw [abr12_next_brush_head_ok h0 hh, abr12_next_brush_head_ok h0 hh2]
      exact ⟨rfl, rfl, rfl, rfl, rfl⟩
    | error e =>
      rw [abr12_next_brush_head_error h0 hh, abr12_next_brush_head_error h0 hh2]
      exact ⟨rfl, rfl, rfl, rfl, rfl⟩

/-- Any number of legacy calls preserves `sameCourse`. -/
theorem abr12_runCalls_sameCourse {d1 d2 : Abr12.Decoder}
    (h : Abr12.sameCourse d1 d2) (n : Nat) :
    Abr12.sameCourse (Abr12.runCalls d1 n) (Abr12.runCalls d2 n) := by
  induction n generalizing d1 d2 with
  | zero => exact h
  | succ n ih => exact ih (abr12_next_brush_congr h).2

/-- While every brush header remains navigable, each legacy call lowers the
remaining count by exactly one. -/
theorem abr12_runCalls_count : ∀ (i : Nat) (dec : Abr12.Decoder),
    (∀ j, j < dec.count →
      ((Abr12.do_brush_head (Abr12.runCalls dec j)).1).isOk = true) →
    i ≤ dec.count → (Abr12.runCalls dec i).count = dec.count - i := by
  intro i
  induction i with
  | zero =>
    intro dec hnav hle
    simp [Abr12.runCalls]
  | succ i ih =>
    intro dec hnav hle
    have h0 : dec.count ≠ 0 := by omega
    have hnav0 : ((Abr12.do_brush_head dec).1).isOk = true := hnav 0 (by omega)
    rcases hh : Abr12.do_brush_head dec with ⟨r, s1⟩
    cases r with
    | error e =>
      rw [hh] at hnav0
      exact absurd hnav0 (by simp [Except.isOk, Except.toBool])
    | ok res =>
      have hstep := abr12_next_brush_head_ok h0 hh
      have hcount1 : (Abr12.next_brush dec).2.count = dec.count - 1 := by rw [hstep]
      have hnav2 : ∀ j, j < (Abr12.next_brush dec).2.count →
          ((Abr12.do_brush_head (Abr12.runCalls (Abr12.next_brush dec).2 j)).1).isOk
            = true := by
        intro j hj
        have hrc : Abr12.runCalls (Abr12.next_brush dec).2 j
            = Abr12.runCalls dec (j + 1) := rfl
        rw [hrc]
        exact hnav (j + 1) (by omega)
      have hrec := ih (Abr12.next_brush dec).2 hnav2 (by omega)
      show (Abr12.runCalls (Abr12.next_brush dec).2 i).count = dec.count - (i + 1)
      rw [hrec, hcount1]
      omega

/-- With the next-brush offset at or past the section end, the generation-6
`next_brush` signals `none` and leaves the decoder unchanged. -/
theorem abr6_next_brush_exhausted {dec : Abr6.Decoder}
    (h : dec.next_brush_pos ≥ dec.sample_section_end) :
    Abr6.next_brush dec = (none, dec) := by
  unfold Abr6.next_brush
  rw [if_pos h]

/-- With the offset strictly inside the section, the generation-6
`next_brush` always returns `some`. -/
theorem abr6_next_brush_isSome {dec : Abr6.Decoder}
    (h : ¬dec.next_brush_pos ≥ dec.sample_section_end) :
    ((Abr6.next_brush dec).1).isSome = true := by
  unfold Abr6.next_brush
  rw [if_neg h]
  split
  next np s1 heq => rfl
  next e s1 heq => rfl

/-- The success branch of the generation-6 `next_brush`: the aligned next
offset is committed and the call returns whatever the body parse
produces. -/
theorem abr6_next_brush_len_ok {dec : Abr6.Decoder} {np : Nat} {s1 : ByteStream}
    (h0 : ¬dec.next_brush_pos ≥ dec.sample_section_end)
    (hh : Abr6.process_brush_length dec = (.ok np, s1)) :
    Abr6.next_brush dec = (some (Abr6.process_brush_body dec.subversion s1).1,
      ⟨(Abr6.process_brush_body dec.subversion s1).2, dec.subversion,
        dec.sample_section_end, np⟩) := by
  unfold Abr6.next_brush
  rw [if_neg h0]
  split
  next np2 s2 heq =>
    rw [hh] at heq
    injection heq with h1 h2
    injection h1 with h3
    subst h2
    subst h3
    rfl
  next e s2 heq =>
    rw [hh] at heq
    exact absurd heq (by simp)

/-- The failure branch of the generation-6 `next_brush`: an offset
computation failure jumps the offset to the section end and surfaces the
I/O error. -/
theorem abr6_next_brush_len_error {dec : Abr6.Decoder} {e : ReadError} {s1 : ByteStream}
    (h0 : ¬dec.next_brush_pos ≥ dec.sample_section_end)
    (hh : Abr6.process_brush_length dec = (.error e, s1)) :
    Abr6.next_brush dec = (some (.error (.ioError e)),
      ⟨s1, dec.subversion, dec.sample_section_end, dec.sample_section_end⟩) := by
  unfold Abr6.next_brush
  rw [if_neg h0]
  split
  next np2 s2 heq =>
    rw [hh] at heq
    exact absurd heq (by simp)
  next e2 s2 heq =>
    rw [hh] at heq
    injection heq with h1 h2
    injection h1 with h3
    subst h2
    subst h3
    rfl

/-- A generation-6 decoder whose offset has reached the section end never
changes again. -/
theorem abr6_runCalls_exhausted {dec : Abr6.Decoder}
    (h : dec.next_brush_pos ≥ dec.sample_section_end) (n : Nat) :
    Abr6.runCalls dec n = dec := by
  induction n with
  | zero => rfl
  | succ n ih =>
    show Abr6.runCalls (Abr6.next_brush dec).2 n = dec
    rw [abr6_next_brush_exhausted h]
    exact ih

/-- `process_brush_length` depends only on the underlying bytes and the
committed next-brush offset — it seeks before reading. -/
theorem abr6_process_brush_length_congr {d1 d2 : Abr6.Decoder}
    (hd : d1.rdr.data = d2.rdr.data) (hn : d1.next_brush_pos = d2.next_brush_pos) :
    Abr6.process_brush_length d1 = Abr6.process_brush_length d2 := by
  cases d1 with | mk r1 v1 e1 n1 =>
  cases d2 with | mk r2 v2 e2 n2 =>
  cases r1 with | mk data1 p1 =>
  cases r2 with | mk data2 p2 =>
  simp only at hd hn
  subst hd
  subst hn
  rfl

/-- One generation-6 call preserves `sameCourse` and produces the same
result on both decoders. -/
theorem abr6_next_brush_congr {d1 d2 : Abr6.Decoder} (h : Abr6.sameCourse d1 d2) :
    (Abr6.next_brush d1).1 = (Abr6.next_brush d2).1 ∧
      Abr6.sameCourse (Abr6.next_brush d1).2 (Abr6.next_brush d2).2 := by
  obtain ⟨hd, hv, he, hn⟩ := h
  cases d1 with | mk r1 v1 e1 n1 =>
  cases d2 with | mk r2 v2 e2 n2 =>
  cases r1 with | mk data1 p1 =>
  cases r2 with | mk data2 p2 =>
  simp only at hd hv he hn
  subst hd
  subst hv
  subst he
  subst hn
  by_cases h0 : n1 ≥ e1
  · rw [abr6_next_brush_exhausted h0, abr6_next_brush_exhausted h0]
    exact ⟨rfl, rfl, rfl, rfl, rfl⟩
  · rcases hh : Abr6.process_brush_length ⟨⟨data1, p1⟩, v1, e1, n1⟩ with ⟨r, s1⟩
    have hh2 : Abr6.process_brush_length ⟨⟨data1, p2⟩, v1, e1, n1⟩ = (r, s1) :=
      (abr6_process_brush_length_congr rfl rfl).trans hh
    cases r with
    | ok np =>
      rw [abr6_next_brush_len_ok h0 hh, abr6_next_brush_len_ok h0 hh2]
      exact ⟨rfl, rfl, rfl, rfl, rfl⟩
    | error e =>
      rw [abr6_next_brush_len_error h0 hh, abr6_next_brush_len_error h0 hh2]
      exact ⟨rfl, rfl, rfl, rfl, rfl⟩

/-- Any number of generation-6 calls preserves `sameCourse`. -/
theorem abr6_runCalls_sameCourse {d1 d2 : Abr6.Decoder}
    (h : Abr6.sameCourse d1 d2) (n : Nat) :
    Abr6.sameCourse (Abr6.runCalls d1 n) (Abr6.runCalls d2 n) := by
  induction n generalizing d1 d2 with
  | zero => exact h
  | succ n ih => exact ih (abr6_next_brush_congr h).2

/-- A successful `process_brush_length` returns the 4-byte-aligned position
just past the record, for the 32-bit length it read. -/
theorem abr6_process_brush_length_ok_shape {dec : Abr6.Decoder} {np : Nat}
    {s1 : ByteStream} (hh : Abr6.process_brush_length dec = (.ok np, s1)) :
    ∃ len, np = Abr6.trunc4 (((dec.next_brush_pos + 4) + len) + 3) := by
  unfold Abr6.process_brush_length at hh
  obtain ⟨u, t1, hseek, hh⟩ := Pm.bind_eq_ok hh
  obtain ⟨len, t2, hlen, hh⟩ := Pm.bind_eq_ok hh
  obtain ⟨hv, hs⟩ := Pm.pure_eq_ok hh
  exact ⟨len, hv⟩

/-- C1: on a legacy input whose brush headers are all navigable (every seek
and 16-bit length read succeeds), `next_brush` returns `some` on exactly
the first `count` calls and `none` on every call after that, regardless of
whether individual calls produce `Ok` or a brush-body error. -/
theorem claim_C1_legacy_exact_count (dec : Abr12.Decoder)
    (hnav : ∀ j, j < dec.count →
      ((Abr12.do_brush_head (Abr12.runCalls dec j)).1).isOk = true) :
    ∀ i, ((Abr12.next_brush (Abr12.runCalls dec i)).1).isSome = true ↔ i < dec.count := by
  intro i
  by_cases hi : i < dec.count
  · simp only [hi, iff_true]
    have hc := abr12_runCalls_count i dec hnav (le_of_lt hi)
    exact abr12_next_brush_isSome (by omega)
  · simp only [hi, iff_false]
    have hc := abr12_runCalls_count dec.count dec hnav (le_refl _)
    have hz : (Abr12.runCalls dec dec.count).count = 0 := by omega
    have heq2 : Abr12.runCalls dec i = Abr12.runCalls dec dec.count := by
      have h1 : i = (i - dec.count) + dec.count := by omega
      rw [h1, abr12_runCalls_add]
      exact abr12_runCalls_count_zero hz _
    rw [heq2, abr12_next_brush_count_zero hz]
    simp

/-- Witness for C1 on a two-byte stream declaring one brush of length 0. -/
theorem claim_C1_witness :
    ((Abr12.next_brush (Abr12.runCalls ⟨⟨[0, 0], 0⟩, 1, 1, 0⟩ 0)).1).isSome = true ↔
      0 < (⟨⟨[0, 0], 0⟩, 1, 1, 0⟩ : Abr12.Decoder).count :=
  claim_C1_legacy_exact_count ⟨⟨[0, 0], 0⟩, 1, 1, 0⟩ (by decide) 0

/-- C10: exhaustion is absorbing for both decoders — once a `next_brush`
call returns `none`, every subsequent call returns `none` as well. -/
theorem claim_C10_exhaustion_absorbing :
    (∀ dec : Abr12.Decoder, (Abr12.next_brush dec).1 = none →
      ∀ n, (Abr12.next_brush (Abr12.runCalls dec n)).1 = none) ∧
    (∀ dec : Abr6.Decoder, (Abr6.next_brush dec).1 = none →
      ∀ n, (Abr6.next_brush (Abr6.runCalls dec n)).1 = none) := by
  constructor
  · intro dec h n
    have h0 : dec.count = 0 := by
      by_contra h0
      have hs := abr12_next_brush_isSome h0
      rw [h] at hs
      exact absurd hs (by simp)
    rw [abr12_runCalls_count_zero h0 n, abr12_next_brush_count_zero h0]
  · intro dec h n
    have h0 : dec.next_brush_pos ≥ dec.sample_section_end := by
      by_contra h0
      have hs := abr6_next_brush_isSome h0
      rw [h] at hs
      exact absurd hs (by simp)
    rw [abr6_runCalls_exhausted h0 n, abr6_next_brush_exhausted h0]

/-- Witness for C10 on exhausted decoders over an empty stream. -/
theorem claim_C10_witness :
    (Abr12.next_brush (Abr12.runCalls ⟨⟨[], 0⟩, 1, 0, 0⟩ 2)).1 = none ∧
    (Abr6.next_brush (Abr6.runCalls ⟨⟨[], 0⟩, 1, 0, 0⟩ 2)).1 = none :=
  ⟨claim_C10_exhaustion_absorbing.1 ⟨⟨[], 0⟩, 1, 0, 0⟩ (by decide) 2,
   claim_C10_exhaustion_absorbing.2 ⟨⟨[], 0⟩, 1, 0, 0⟩ (by decide) 2⟩

/-- C4: a failure while seeking to a record or reading its length field is
fatal — the call surfaces the I/O error, the decoder forces its exhaustion
condition (count zeroed; offset jumped to the section end), and every
subsequent call returns `none`. -/
theorem claim_C4_navigation_failure_fatal :
    (∀ (dec : Abr12.Decoder) (e : ReadError) (s1 : ByteStream), dec.count ≠ 0 →
      Abr12.do_brush_head dec = (.error e, s1) →
      (Abr12.next_brush dec).1 = some (.error (.ioError e)) ∧
      (Abr12.next_brush dec).2.count = 0 ∧
      ∀ n, (Abr12.next_brush (Abr12.runCalls (Abr12.next_brush dec).2 n)).1 = none) ∧
    (∀ (dec : Abr6.Decoder) (e : ReadError) (s1 : ByteStream),
      dec.next_brush_pos < dec.sample_section_end →
      Abr6.process_brush_length dec = (.error e, s1) →
      (Abr6.next_brush dec).1 = some (.error (.ioError e)) ∧
      (Abr6.next_brush dec).2.next_brush_pos
        = (Abr6.next_brush dec).2.sample_section_end ∧
      ∀ n, (Abr6.next_brush (Abr6.runCalls (Abr6.next_brush dec).2 n)).1 = none) := by
  constructor
  · intro dec e s1 h0 hh
    have hstep := abr12_next_brush_head_error h0 hh
    refine ⟨by rw [hstep], by rw [hstep], ?_⟩
    intro n
    have hz : (Abr12.next_brush dec).2.count = 0 := by rw [hstep]
    rw [abr12_runCalls_count_zero hz n, abr12_next_brush_count_zero hz]
  · intro dec e s1 h0 hh
    have h0n : ¬dec.next_brush_pos ≥ dec.sample_section_end := by omega
    have hstep := abr6_next_brush_len_error h0n hh
    refine ⟨by rw [hstep], by rw [hstep], ?_⟩
    intro n
    have hz : (Abr6.next_brush dec).2.next_brush_pos
        ≥ (Abr6.next_brush dec).2.sample_section_end := by rw [hstep]
    rw [abr6_runCalls_exhausted hz n, abr6_next_brush_exhausted hz]

/-- Witness for C4: a legacy decoder seeking past an empty stream, and a
generation-6 decoder whose length read hits the end of an empty stream. -/
theorem claim_C4_witness :
    ((Abr12.next_brush ⟨⟨[], 0⟩, 1, 1, 5⟩).1 = some (.error (.ioError .unexpectedEof)) ∧
      (Abr12.next_brush ⟨⟨[], 0⟩, 1, 1, 5⟩).2.count = 0 ∧
      ∀ n, (Abr12.next_brush
        (Abr12.runCalls (Abr12.next_brush ⟨⟨[], 0⟩, 1, 1, 5⟩).2 n)).1 = none) ∧
    ((Abr6.next_brush ⟨⟨[], 0⟩, 1, 4, 0⟩).1 = some (.error (.ioError .unexpectedEof)) ∧
      (Abr6.next_brush ⟨⟨[], 0⟩, 1, 4, 0⟩).2.next_brush_pos
        = (Abr6.next_brush ⟨⟨[], 0⟩, 1, 4, 0⟩).2.sample_section_end ∧
      ∀ n, (Abr6.next_brush
        (Abr6.runCalls (Abr6.next_brush ⟨⟨[], 0⟩, 1, 4, 0⟩).2 n)).1 = none) :=
  ⟨claim_C4_navigation_failure_fatal.1 ⟨⟨[], 0⟩, 1, 1, 5⟩ .unexpectedEof ⟨[], 5⟩
      (by decide) (by decide),
   claim_C4_navigation_failure_fatal.2 ⟨⟨[], 0⟩, 1, 4, 0⟩ .unexpectedEof ⟨[], 0⟩
      (by decide) (by decide)⟩

/-- C2 (amended): generation-6 next-brush offsets never decrease across a
call, and the offset committed by a successful length computation is a
multiple of 4 in absolute stream position — hence a multiple of 4 relative
to the sample-section start exactly when that start is itself 4-byte
aligned. -/
theorem claim_C2_amended_offsets :
    (∀ dec : Abr6.Decoder,
      dec.next_brush_pos ≤ (Abr6.next_brush dec).2.next_brush_pos) ∧
    (∀ (dec : Abr6.Decoder) (np : Nat) (s1 : ByteStream),
      dec.next_brush_pos < dec.sample_section_end →
      Abr6.process_brush_length dec = (.ok np, s1) →
      (Abr6.next_brush dec).2.next_brush_pos = np ∧ np % 4 = 0) := by
  constructor
  · intro dec
    by_cases h0 : dec.next_brush_pos ≥ dec.sample_section_end
    · rw [abr6_next_brush_exhausted h0]
    · rcases hh : Abr6.process_brush_length dec with ⟨r, s1⟩
      cases r with
      | ok np =>
        rw [abr6_next_brush_len_ok h0 hh]
        obtain ⟨len, hnp⟩ := abr6_process_brush_length_ok_shape hh
        simp only
        rw [hnp]
        unfold Abr6.trunc4
        omega
      | error e =>
        rw [abr6_next_brush_len_error h0 hh]
        simp only
        omega
  · intro dec np s1 h0 hh
    have h0n : ¬dec.next_brush_pos ≥ dec.sample_section_end := by omega
    obtain ⟨len, hnp⟩ := abr6_process_brush_length_ok_shape hh
    refine ⟨by rw [abr6_next_brush_len_ok h0n hh], ?_⟩
    rw [hnp]
    unfold Abr6.trunc4
    omega

/-- Witness for the amended C2 on a four-byte stream whose single record
declares length 0: the committed offset is 4, a multiple of 4. -/
theorem claim_C2_amended_witness :
    (⟨⟨[0, 0, 0, 0], 0⟩, 1, 4, 0⟩ : Abr6.Decoder).next_brush_pos ≤
        (Abr6.next_brush ⟨⟨[0, 0, 0, 0], 0⟩, 1, 4, 0⟩).2.next_brush_pos ∧
      ((Abr6.next_brush ⟨⟨[0, 0, 0, 0], 0⟩, 1, 4, 0⟩).2.next_brush_pos = 4 ∧
        4 % 4 = 0) :=
  ⟨claim_C2_amended_offsets.1 ⟨⟨[0, 0, 0, 0], 0⟩, 1, 4, 0⟩,
   claim_C2_amended_offsets.2 ⟨⟨[0, 0, 0, 0], 0⟩, 1, 4, 0⟩ 4 ⟨[0, 0, 0, 0], 4⟩
     (by decide) (by decide)⟩

/-- C2 as stated is false: on `c2bytes` the sample section opens at
absolute offset 25 (the first visited offset), a second record is visited
at absolute offset 32 (still inside the section, which ends at 45), and
32 − 25 = 7 is not a multiple of 4 — the alignment is absolute, not
relative to the section start. -/
theorem claim_C2_counterexample :
    Abr6.openDecoder ⟨c2bytes, 0⟩ 1 = .ok ⟨⟨c2bytes, 25⟩, 1, 45, 25⟩ ∧
    (Abr6.next_brush ⟨⟨c2bytes, 25⟩, 1, 45, 25⟩).2.next_brush_pos = 32 ∧
    (Abr6.next_brush ⟨⟨c2bytes, 25⟩, 1, 45, 25⟩).2.next_brush_pos <
      (Abr6.next_brush ⟨⟨c2bytes, 25⟩, 1, 45, 25⟩).2.sample_section_end ∧
    (32 - 25) % 4 ≠ 0 := by
  refine ⟨?_, by decide, by decide, by decide⟩
  have hfs : Abr6.findSamp c2bytes 0 = .ok 21 := by
    rw [@findSamp_skip c2bytes 0 [65, 65, 65, 65] [66, 66, 66, 66] 1
      ⟨c2bytes, 4⟩ ⟨c2bytes, 8⟩ ⟨c2bytes, 12⟩
      (by decide) (by decide) (by decide) (by decide) (by decide)]
    exact @findSamp_samp c2bytes (0 + 12 + 1) [67, 67, 67, 67]
      ⟨c2bytes, 17⟩ ⟨c2bytes, 21⟩
      (by decide) (by decide) (by decide)
  have hr : readU32 ⟨c2bytes, 21⟩ = (.ok 20, ⟨c2bytes, 25⟩) := by decide
  simp only [Abr6.openDecoder, hfs, hr]

/-- C3: when the offset computation succeeds but body parsing fails, the
call returns that brush error, the decoder has already committed the next
offset (count decremented for the legacy decoder), and every following
call behaves exactly as it would on any decoder following the same course
— in particular, as if the failed brush had decoded successfully. -/
theorem claim_C3_body_failure_local :
    (∀ (dec : Abr12.Decoder) (res : Abr12.BrushHeadResult) (s1 : ByteStream)
      (e : BrushError), dec.count ≠ 0 →
      Abr12.do_brush_head dec = (.ok res, s1) →
      (Abr12.do_brush_body dec.version s1).1 = .error e →
      (Abr12.next_brush dec).1 = some (.error e) ∧
      (Abr12.next_brush dec).2.count = dec.count - 1 ∧
      (Abr12.next_brush dec).2.next_brush_pos = res.next_brush_pos ∧
      ∀ d2 : Abr12.Decoder, Abr12.sameCourse (Abr12.next_brush dec).2 d2 →
        ∀ n, (Abr12.next_brush (Abr12.runCalls (Abr12.next_brush dec).2 n)).1 =
          (Abr12.next_brush (Abr12.runCalls d2 n)).1) ∧
    (∀ (dec : Abr6.Decoder) (np : Nat) (s1 : ByteStream) (e : BrushError),
      dec.next_brush_pos < dec.sample_section_end →
      Abr6.process_brush_length dec = (.ok np, s1) →
      (Abr6.process_brush_body dec.subversion s1).1 = .error e →
      (Abr6.next_brush dec).1 = some (.error e) ∧
      (Abr6.next_brush dec).2.next_brush_pos = np ∧
      ∀ d2 : Abr6.Decoder, Abr6.sameCourse (Abr6.next_brush dec).2 d2 →
        ∀ n, (Abr6.next_brush (Abr6.runCalls (Abr6.next_brush dec).2 n)).1 =
          (Abr6.next_brush (Abr6.runCalls d2 n)).1) := by
  constructor
  · intro dec res s1 e h0 hh hbody
    have hstep := abr12_next_brush_head_ok h0 hh
    refine ⟨by rw [hstep]; rw [hbody], by rw [hstep], by rw [hstep], ?_⟩
    intro d2 hsc n
    exact (abr12_next_brush_congr (abr12_runCalls_sameCourse hsc n)).1
  · intro dec np s1 e h0 hh hbody
    have h0n : ¬dec.next_brush_pos ≥ dec.sample_section_end := by omega
    have hstep := abr6_next_brush_len_ok h0n hh
    refine ⟨by rw [hstep]; rw [hbody], by rw [hstep], ?_⟩
    intro d2 hsc n
    exact (abr6_next_brush_congr (abr6_runCalls_sameCourse hsc n)).1

/-- Witness for C3: a legacy record whose brush-type tag is 3, and a
generation-6 record whose body runs off the end of the stream. -/
theorem claim_C3_witness :
    ((Abr12.next_brush ⟨⟨[0, 1, 0, 3], 0⟩, 1, 2, 0⟩).1 =
        some (.error (.unsupportedBrushType 3)) ∧
      (Abr12.next_brush ⟨⟨[0, 1, 0, 3], 0⟩, 1, 2, 0⟩).2.count = 2 - 1 ∧
      (Abr12.next_brush ⟨⟨[0, 1, 0, 3], 0⟩, 1, 2, 0⟩).2.next_brush_pos = 3 ∧
      ∀ d2 : Abr12.Decoder,
        Abr12.sameCourse (Abr12.next_brush ⟨⟨[0, 1, 0, 3], 0⟩, 1, 2, 0⟩).2 d2 →
        ∀ n, (Abr12.next_brush
            (Abr12.runCalls (Abr12.next_brush ⟨⟨[0, 1, 0, 3], 0⟩, 1, 2, 0⟩).2 n)).1 =
          (Abr12.next_brush (Abr12.runCalls d2 n)).1) ∧
    ((Abr6.next_brush ⟨⟨[0, 0, 0, 0], 0⟩, 1, 100, 0⟩).1 =
        some (.error (.ioError .unexpectedEof)) ∧
      (Abr6.next_brush ⟨⟨[0, 0, 0, 0], 0⟩, 1, 100, 0⟩).2.next_brush_pos = 4 ∧
      ∀ d2 : Abr6.Decoder,
        Abr6.sameCourse (Abr6.next_brush ⟨⟨[0, 0, 0, 0], 0⟩, 1, 100, 0⟩).2 d2 →
        ∀ n, (Abr6.next_brush
            (Abr6.runCalls (Abr6.next_brush ⟨⟨[0, 0, 0, 0], 0⟩, 1, 100, 0⟩).2 n)).1 =
          (Abr6.next_brush (Abr6.runCalls d2 n)).1) :=
  ⟨claim_C3_body_failure_local.1 ⟨⟨[0, 1, 0, 3], 0⟩, 1, 2, 0⟩ ⟨3⟩ ⟨[0, 1, 0, 3], 2⟩
      (.unsupportedBrushType 3) (by decide) (by decide) (by decide),
   claim_C3_body_failure_local.2 ⟨⟨[0, 0, 0, 0], 0⟩, 1, 100, 0⟩ 4 ⟨[0, 0, 0, 0], 4⟩
      (.ioError .unexpectedEof) (by decide) (by decide) (by decide)⟩

/-- C7: the scenario input `c7bytes` (legacy version 2, count 1, one type-2
record, depth 8, uncompressed, bounds top 0 left 0 bottom 2 right 2, with
the four 32-bit long bounds read and discarded) decodes on the first call
to a 2-by-2, 8-bit brush whose 4 data bytes match the input exactly. -/
theorem claim_C7_scenario_2x2 :
    Abr12.openDecoder ⟨c7bytes, 0⟩ 2 1 = .ok ⟨⟨c7bytes, 0⟩, 2, 1, 0⟩ ∧
    (Abr12.next_brush ⟨⟨c7bytes, 0⟩, 2, 1, 0⟩).1 =
      some (.ok ⟨2, 2, 8, [10, 20, 30, 40]⟩) := by
  constructor
  · rfl
  · decide

/-- C9: the bounds subtractions are unchecked wrapping machine subtraction
with no ordering check: a legacy body with right 0 and left 1 decodes
without any format-violation error to a brush of width 65535 (the wrapped
u16 value), and a generation-6 body with the same inverted bounds decodes
to width 4294967295 (the wrapped u32 value). -/
theorem claim_C9_wrapping_bounds :
    (Abr12.do_brush_body 1 ⟨c9bytes12, 0⟩).1 = .ok ⟨65535, 0, 8, []⟩ ∧
    (Abr6.process_brush_body 1 ⟨c9bytes6, 0⟩).1 = .ok ⟨4294967295, 0, 8, []⟩ := by
  constructor
  · decide
  · decide

/-- A successful lifted read is a successful read. -/
theorem liftRead_eq_ok {m : Pm ReadError α} {s : ByteStream} {a : α} {s' : ByteStream}
    (h : liftRead m s = (.ok a, s')) : m s = (.ok a, s') := by
  unfold liftRead at h
  split at h
  next a2 s2 heq =>
    injection h with h1 h2
    injection h1 with h3
    subst h3
    subst h2
    exact heq
  next e s2 heq => exact absurd h (by simp)

/-- A successful `readExactN` returns exactly the requested number of
bytes. -/
theorem readExactN_ok_length {n : Nat} {s : ByteStream} {l : List Nat} {s' : ByteStream}
    (h : readExactN n s = (.ok l, s')) : l.length = n := by
  unfold readExactN at h
  split at h
  next hle =>
    injection h with h1 h2
    injection h1 with h3
    rw [← h3, List.length_take]
    omega
  next hgt => exact absurd h (by simp)

/-- A successful RLE decompression produced exactly the target number of
bytes — a mismatch is an error, never a truncated or padded buffer. -/
theorem read_rle_data_ok_length {sc sz : Nat} {s : ByteStream} {out : List Nat}
    {s' : ByteStream} (hh : Util.read_rle_data sc sz s = (.ok out, s')) :
    out.length = sz := by
  unfold Util.read_rle_data at hh
  obtain ⟨o1, t1, hdec, hh⟩ := Pm.bind_eq_ok hh
  split at hh
  next heq =>
    obtain ⟨hv, hs⟩ := Pm.pure_eq_ok hh
    rw [hv]
    exact heq
  next heq =>
    unfold Pm.throwErr at hh
    exact absurd hh (by simp)

/-- C5: every brush either decoder returns satisfies
`data.length = width * height * (depth >>> 3)` exactly, with `depth = 8`;
and the shared RLE codec only ever returns a buffer of exactly the target
size — any decompression mismatch is an error, never a silently truncated
or padded buffer. -/
theorem claim_C5_exact_pixel_buffer :
    (∀ (v : Nat) (s : ByteStream) (b : ImageBrush) (s' : ByteStream),
      Abr12.do_brush_body v s = (.ok b, s') →
      b.depth = 8 ∧ b.data.length = b.width * b.height * (b.depth >>> 3)) ∧
    (∀ (sv : Nat) (s : ByteStream) (b : SampleBrush) (s' : ByteStream),
      Abr6.process_brush_body sv s = (.ok b, s') →
      b.depth = 8 ∧ b.data.length = b.width * b.height * (b.depth >>> 3)) ∧
    (∀ (sc sz : Nat) (s : ByteStream) (out : List Nat) (s' : ByteStream),
      Util.read_rle_data sc sz s = (.ok out, s') → out.length = sz) := by
  refine ⟨?_, ?_, ?_⟩
  · intro v s b s' h
    unfold Abr12.do_brush_body at h
    obtain ⟨ty, s1, hty, h⟩ := Pm.bind_eq_ok h
    split at h
    next hne =>
      unfold Pm.throwErr at h
      exact absurd h (by simp)
    next hne =>
      obtain ⟨misc, s2, hm, h⟩ := Pm.bind_eq_ok h
      obtain ⟨spc, s3, hspc, h⟩ := Pm.bind_eq_ok h
      obtain ⟨u, s4, hskip, h⟩ := Pm.bind_eq_ok h
      obtain ⟨aa, s5, haa, h⟩ := Pm.bind_eq_ok h
      obtain ⟨top, s6, htop, h⟩ := Pm.bind_eq_ok h
      obtain ⟨left, s7, hleft, h⟩ := Pm.bind_eq_ok h
      obtain ⟨bottom, s8, hbot, h⟩ := Pm.bind_eq_ok h
      obtain ⟨right, s9, hright, h⟩ := Pm.bind_eq_ok h
      obtain ⟨tl, s10, htl, h⟩ := Pm.bind_eq_ok h
      obtain ⟨ll, s11, hll, h⟩ := Pm.bind_eq_ok h
      obtain ⟨bl, s12, hbl, h⟩ := Pm.bind_eq_ok h
      obtain ⟨rl, s13, hrl, h⟩ := Pm.bind_eq_ok h
      obtain ⟨depth, s14, hdep, h⟩ := Pm.bind_eq_ok h
      split at h
      next hd =>
        unfold Pm.throwErr at h
        exact absurd h (by simp)
      next hd =>
        obtain ⟨cb, s15, hcb, h⟩ := Pm.bind_eq_ok h
        obtain ⟨data, s16, hdata, h⟩ := Pm.bind_eq_ok h
        obtain ⟨hb, hs⟩ := Pm.pure_eq_ok h
        subst hb
        refine ⟨by show depth = 8; omega, ?_⟩
        show data.length = sub16 right left * sub16 bottom top * (depth >>> 3)
        split at hdata
        next hcomp => exact read_rle_data_ok_length hdata
        next hcomp => exact readExactN_ok_length (liftRead_eq_ok hdata)
  · intro sv s b s' h
    unfold Abr6.process_brush_body at h
    obtain ⟨u, s1, hsk, h⟩ := Pm.bind_eq_ok h
    obtain ⟨top, s2, htop, h⟩ := Pm.bind_eq_ok h
    obtain ⟨left, s3, hleft, h⟩ := Pm.bind_eq_ok h
    obtain ⟨bottom, s4, hbot, h⟩ := Pm.bind_eq_ok h
    obtain ⟨right, s5, hright, h⟩ := Pm.bind_eq_ok h
    obtain ⟨depth, s6, hdep, h⟩ := Pm.bind_eq_ok h
    split at h
    next hd =>
      unfold Pm.throwErr at h
      exact absurd h (by simp)
    next hd =>
      obtain ⟨cb, s7, hcb, h⟩ := Pm.bind_eq_ok h
      obtain ⟨data, s8, hdata, h⟩ := Pm.bind_eq_ok h
      obtain ⟨hb, hs⟩ := Pm.pure_eq_ok h
      subst hb
      refine ⟨by show depth = 8; omega, ?_⟩
      show data.length = sub32 right left * sub32 bottom top * (depth >>> 3)
      split at hdata
      next hcomp => exact read_rle_data_ok_length hdata
      next hcomp => exact readExactN_ok_length (liftRead_eq_ok hdata)
  · intro sc sz s out s' hh
    exact read_rle_data_ok_length hh

/-- Witness for C5: the C7 brush body (4 = 2 * 2 * 1 raw bytes), the C9
generation-6 body (0 bytes), and an RLE stream of one scanline holding one
literal packet of one byte. -/
theorem claim_C5_witness :
    ((⟨2, 2, 8, [10, 20, 30, 40]⟩ : ImageBrush).depth = 8 ∧
      (⟨2, 2, 8, [10, 20, 30, 40]⟩ : ImageBrush).data.length =
        (⟨2, 2, 8, [10, 20, 30, 40]⟩ : ImageBrush).width *
          (⟨2, 2, 8, [10, 20, 30, 40]⟩ : ImageBrush).height *
          ((⟨2, 2, 8, [10, 20, 30, 40]⟩ : ImageBrush).depth >>> 3)) ∧
    ((⟨4294967295, 0, 8, []⟩ : SampleBrush).depth = 8 ∧
      (⟨4294967295, 0, 8, []⟩ : SampleBrush).data.length =
        (⟨4294967295, 0, 8, []⟩ : SampleBrush).width *
          (⟨4294967295, 0, 8, []⟩ : SampleBrush).height *
          ((⟨4294967295, 0, 8, []⟩ : SampleBrush).depth >>> 3)) :=
  ⟨claim_C5_exact_pixel_buffer.1 2 ⟨c7bytes, 2⟩ ⟨2, 2, 8, [10, 20, 30, 40]⟩
      ⟨c7bytes, 46⟩ (by decide),
   claim_C5_exact_pixel_buffer.2.1 1 ⟨c9bytes6, 0⟩ ⟨4294967295, 0, 8, []⟩
      ⟨c9bytes6, 66⟩ (by decide)⟩

/-- Scanning any run of skippable resource blocks followed by an `8bim`
signature ends in the `Found8bim` error. -/
theorem findSamp_blocks (bs : List Abr6.RsrcBlock) :
    ∀ (ctx rest : List Nat), (∀ b ∈ bs, Abr6.skippable b) →
    Abr6.findSamp (ctx ++ (Abr6.blocksBytes bs ++ (Abr6.tag8bim ++ rest))) ctx.length
      = .error .found8bim := by
  induction bs with
  | nil =>
    intro ctx rest hbs
    simp only [Abr6.blocksBytes, List.map_nil, List.flatten_nil, List.nil_append]
    have hr := run_readExactN ctx Abr6.tag8bim rest 4 (by decide)
    simp only [List.append_assoc] at hr
    exact findSamp_8bim hr
  | cons b bs ih =>
    intro ctx rest hbs
    obtain ⟨hsl, htl, hsne, htne, hplen⟩ := hbs b (List.mem_cons_self _ _)
    have hbs2 : ∀ x ∈ bs, Abr6.skippable x := fun x hx => hbs x (List.mem_cons_of_mem _ hx)
    have hshape : ctx ++ (Abr6.blocksBytes (b :: bs) ++ (Abr6.tag8bim ++ rest))
        = ctx ++ (b.sig ++ (b.tag ++ (u32be b.payload.length ++ (b.payload ++
            (Abr6.blocksBytes bs ++ (Abr6.tag8bim ++ rest)))))) := by
      simp [Abr6.blocksBytes, Abr6.blockBytes, List.append_assoc]
    rw [hshape]
    have h1 : readExactN 4
        ⟨ctx ++ (b.sig ++ (b.tag ++ (u32be b.payload.length ++ (b.payload ++
          (Abr6.blocksBytes bs ++ (Abr6.tag8bim ++ rest)))))), ctx.length⟩
        = (.ok b.sig, ⟨ctx ++ (b.sig ++ (b.tag ++ (u32be b.payload.length ++ (b.payload ++
          (Abr6.blocksBytes bs ++ (Abr6.tag8bim ++ rest)))))), ctx.length + 4⟩) := by
      have hr := run_readExactN ctx b.sig (b.tag ++ (u32be b.payload.length ++ (b.payload ++
        (Abr6.blocksBytes bs ++ (Abr6.tag8bim ++ rest))))) 4 hsl
      simp only [List.append_assoc] at hr
      exact hr
    have h2 : readExactN 4
        ⟨ctx ++ (b.sig ++ (b.tag ++ (u32be b.payload.length ++ (b.payload ++
          (Abr6.blocksBytes bs ++ (Abr6.tag8bim ++ rest)))))), ctx.length + 4⟩
        = (.ok b.tag, ⟨ctx ++ (b.sig ++ (b.tag ++ (u32be b.payload.length ++ (b.payload ++
          (Abr6.blocksBytes bs ++ (Abr6.tag8bim ++ rest)))))), ctx.length + 4 + 4⟩) := by
      have hr := run_readExactN (ctx ++ b.sig) b.tag (u32be b.payload.length ++ (b.payload ++
        (Abr6.blocksBytes bs ++ (Abr6.tag8bim ++ rest)))) 4 htl
      simp only [List.append_assoc, List.length_append, hsl, htl] at hr
      exact hr
    have h3 : readU32
        ⟨ctx ++ (b.sig ++ (b.tag ++ (u32be b.payload.length ++ (b.payload ++
          (Abr6.blocksBytes bs ++ (Abr6.tag8bim ++ rest)))))), ctx.length + 4 + 4⟩
        = (.ok b.payload.length,
           ⟨ctx ++ (b.sig ++ (b.tag ++ (u32be b.payload.length ++ (b.payload ++
            (Abr6.blocksBytes bs ++ (Abr6.tag8bim ++ rest)))))), ctx.length + 4 + 4 + 4⟩) := by
      have hr := run_readU32_u32be (ctx ++ b.sig ++ b.tag) (b.payload ++
        (Abr6.blocksBytes bs ++ (Abr6.tag8bim ++ rest))) b.payload.length hplen
      simp only [List.append_assoc, List.length_append, hsl, htl] at hr
      exact hr
    have h2' : readExactN 4
        ⟨ctx ++ (b.sig ++ (b.tag ++ (u32be b.payload.length ++ (b.payload ++
          (Abr6.blocksBytes bs ++ (Abr6.tag8bim ++ rest)))))), ctx.length + 4⟩
        = (.ok b.tag, ⟨ctx ++ (b.sig ++ (b.tag ++ (u32be b.payload.length ++ (b.payload ++
          (Abr6.blocksBytes bs ++ (Abr6.tag8bim ++ rest)))))), ctx.length + 8⟩) := by
      rw [h2]
    have h3' : readU32
        ⟨ctx ++ (b.sig ++ (b.tag ++ (u32be b.payload.length ++ (b.payload ++
          (Abr6.blocksBytes bs ++ (Abr6.tag8bim ++ rest)))))), ctx.length + 8⟩
        = (.ok b.payload.length,
           ⟨ctx ++ (b.sig ++ (b.tag ++ (u32be b.payload.length ++ (b.payload ++
            (Abr6.blocksBytes bs ++ (Abr6.tag8bim ++ rest)))))), ctx.length + 12⟩) := by
      rw [show ctx.length + 8 = ctx.length + 4 + 4 from by omega, h3]
    rw [findSamp_skip h1 hsne h2' htne h3']
    have hrec := ih (ctx ++ Abr6.blockBytes b) rest hbs2
    have hdata : (ctx ++ Abr6.blockBytes b) ++ (Abr6.blocksBytes bs ++ (Abr6.tag8bim ++ rest))
        = ctx ++ (b.sig ++ (b.tag ++ (u32be b.payload.length ++ (b.payload ++
            (Abr6.blocksBytes bs ++ (Abr6.tag8bim ++ rest)))))) := by
      simp [Abr6.blockBytes, List.append_assoc]
    have hlen12 : (ctx ++ Abr6.blockBytes b).length = ctx.length + 12 + b.payload.length := by
      simp only [Abr6.blockBytes, u32be, List.length_append, List.length_cons,
        List.length_nil, hsl, htl]
      omega
    rw [hdata, hlen12] at hrec
    exact hrec

/-- C6: for every input in which an `8bim` signature block occurs before
any `samp`-tagged block, generation-6 construction fails with the distinct
`Found8bim` section-not-found error — no decoder value is produced, and the
error is distinct from every I/O error (and lives in `OpenError`, a type
disjoint from the body-parsing `BrushError`). -/
theorem claim_C6_found8bim_before_samp (bs : List Abr6.RsrcBlock) (rest : List Nat)
    (sv : Nat) (hbs : ∀ b ∈ bs, Abr6.skippable b) :
    Abr6.openDecoder ⟨Abr6.blocksBytes bs ++ (Abr6.tag8bim ++ rest), 0⟩ sv
      = .error .found8bim ∧
    ∀ e, OpenError.found8bim ≠ OpenError.ioError e := by
  constructor
  · have hfs : Abr6.findSamp (Abr6.blocksBytes bs ++ (Abr6.tag8bim ++ rest)) 0
        = .error .found8bim := by
      have hb := findSamp_blocks bs [] rest hbs
      simp only [List.nil_append, List.length_nil] at hb
      exact hb
    simp only [Abr6.openDecoder, hfs]
  · intro e hcontra
    exact OpenError.noConfusion hcontra

/-- Witness for C6: one skippable block (signature `AAAA`, tag `BBBB`,
payload one byte) followed by an `8bim` signature. -/
theorem claim_C6_witness :
    Abr6.openDecoder
        ⟨Abr6.blocksBytes [⟨[65, 65, 65, 65], [66, 66, 66, 66], [7]⟩] ++
          (Abr6.tag8bim ++ [1, 2, 3]), 0⟩ 1 = .error .found8bim ∧
    ∀ e, OpenError.found8bim ≠ OpenError.ioError e :=
  claim_C6_found8bim_before_samp [⟨[65, 65, 65, 65], [66, 66, 66, 66], [7]⟩] [1, 2, 3] 1
    (by intro b hb
        rw [List.mem_singleton] at hb
        subst hb
        exact ⟨by decide, by decide, by decide, by decide, by decide⟩)

/-- A successful plain read lifts to a successful brush-level read. -/
theorem run_liftRead {m : Pm ReadError α} {s : ByteStream} {a : α} {s' : ByteStream}
    (h : m s = (.ok a, s')) : liftRead m s = (.ok a, s') := by
  unfold liftRead
  rw [h]

/-- Dropping past a known prefix of the remaining bytes. -/
theorem drop_after {data : List Nat} {pos n : Nat} {b c : List Nat}
    (h : data.drop pos = b ++ c) (hb : b.length = n) :
    data.drop (pos + n) = c := by
  subst hb
  rw [← List.drop_drop, h, List.drop_left]

/-- `readU8` when the remaining bytes are known. -/
theorem readU8_drop {s : ByteStream} {x : Nat} {t : List Nat}
    (h : s.data.drop s.pos = x :: t) :
    readU8 s = (.ok x, ⟨s.data, s.pos + 1⟩) := by
  unfold readU8
  rw [h]

/-- `readExactN` when the remaining bytes are known. -/
theorem readExactN_drop {s : ByteStream} {b c : List Nat} {n : Nat}
    (h : s.data.drop s.pos = b ++ c) (hb : b.length = n) :
    readExactN n s = (.ok b, ⟨s.data, s.pos + n⟩) := by
  subst hb
  unfold readExactN
  rw [h, if_pos (by simp), List.take_left]

/-- `readU16` when the remaining bytes are known. -/
theorem readU16_drop {s : ByteStream} {x y : Nat} {t : List Nat}
    (h : s.data.drop s.pos = x :: y :: t) :
    readU16 s = (.ok (x * 256 + y), ⟨s.data, s.pos + 2⟩) := by
  unfold readU16
  refine Pm.run_bind (readU8_drop h) ?_
  have hd1 : s.data.drop (s.pos + 1) = y :: t := drop_after (b := [x]) h rfl
  refine Pm.run_bind (readU8_drop hd1) ?_
  rfl

/-- `readU16` over a 16-bit big-endian encoding. -/
theorem readU16_u16be_drop {s : ByteStream} {n : Nat} {t : List Nat}
    (h : s.data.drop s.pos = u16be n ++ t) (hn : n < 65536) :
    readU16 s = (.ok n, ⟨s.data, s.pos + 2⟩) := by
  have h2 : s.data.drop s.pos = (n / 256 % 256) :: (n % 256) :: t := h
  rw [readU16_drop h2]
  rw [show n / 256 % 256 * 256 + n % 256 = n from by omega]

/-- Decoding a standard PackBits packet stream of known framed length
recovers exactly the raw bytes it encodes. -/
theorem decodePackets_encodes {packets raw : List Nat}
    (henc : Util.PackBitsEncodes packets raw) :
    ∀ (s : ByteStream) (rest : List Nat), s.data.drop s.pos = packets ++ rest →
    Util.decodePackets packets.length s = (.ok raw, ⟨s.data, s.pos + packets.length⟩) := by
  induction henc with
  | nil =>
    intro s rest h
    rw [Util.decodePackets.eq_def]
    simp [Pm.pure]
  | literal lits rest2 raw2 c hc hl hrec ih =>
    intro s rest h
    simp only [List.cons_append, List.append_assoc] at h
    rw [Util.decodePackets.eq_def]
    rw [dif_neg (by simp)]
    refine Pm.run_bind (run_liftRead (readU8_drop h)) ?_
    rw [if_pos hc]
    have hd1 : s.data.drop (s.pos + 1) = lits ++ (rest2 ++ rest) :=
      drop_after (b := [c]) h rfl
    refine Pm.run_bind (run_liftRead (readExactN_drop hd1 hl)) ?_
    rw [show (c :: (lits ++ rest2)).length - (1 + (c + 1)) = rest2.length from by
      simp only [List.length_cons, List.length_append, hl]
      omega]
    have hd2 : s.data.drop (s.pos + 1 + (c + 1)) = rest2 ++ rest := drop_after hd1 hl
    refine Pm.run_bind (ih ⟨s.data, s.pos + 1 + (c + 1)⟩ rest hd2) ?_
    rw [show s.pos + (c :: (lits ++ rest2)).length = s.pos + 1 + (c + 1) + rest2.length from by
      simp only [List.length_cons, List.length_append, hl]
      omega]
    rfl
  | noop rest2 raw2 hrec ih =>
    intro s rest h
    simp only [List.cons_append] at h
    rw [Util.decodePackets.eq_def]
    rw [dif_neg (by simp)]
    refine Pm.run_bind (run_liftRead (readU8_drop h)) ?_
    rw [if_neg (by omega), if_pos rfl]
    rw [show (128 :: rest2).length - 1 = rest2.length from by simp]
    have hd1 : s.data.drop (s.pos + 1) = rest2 ++ rest := drop_after (b := [128]) h rfl
    have hrec2 := ih ⟨s.data, s.pos + 1⟩ rest hd1
    rw [show s.pos + (128 :: rest2).length = s.pos + 1 + rest2.length from by
      simp only [List.length_cons]
      omega]
    exact hrec2
  | run b rest2 raw2 c hc1 hc2 hrec ih =>
    intro s rest h
    simp only [List.cons_append] at h
    rw [Util.decodePackets.eq_def]
    rw [dif_neg (by simp)]
    refine Pm.run_bind (run_liftRead (readU8_drop h)) ?_
    rw [if_neg (by omega), if_neg (by omega)]
    have hd1 : s.data.drop (s.pos + 1) = b :: (rest2 ++ rest) :=
      drop_after (b := [c]) h rfl
    refine Pm.run_bind (run_liftRead (readU8_drop hd1)) ?_
    rw [show (c :: b :: rest2).length - 2 = rest2.length from by simp]
    have hd2 : s.data.drop (s.pos + 1 + 1) = rest2 ++ rest :=
      drop_after (b := [b]) hd1 rfl
    refine Pm.run_bind (ih ⟨s.data, s.pos + 1 + 1⟩ rest hd2) ?_
    rw [show s.pos + (c :: b :: rest2).length = s.pos + 1 + 1 + rest2.length from by
      simp only [List.length_cons]
      omega]
    rfl

/-- Decoding a framed run of scanlines (each its 16-bit compressed length
followed by its packet stream) yields the concatenated raw scanlines. -/
theorem decodeScanlines_frames (ls : List (List Nat × List Nat)) :
    ∀ (s : ByteStream) (rest : List Nat),
    (∀ p ∈ ls, Util.PackBitsEncodes p.1 p.2 ∧ p.1.length < 65536) →
    s.data.drop s.pos = Util.rleFramed ls ++ rest →
    Util.decodeScanlines ls.length s
      = (.ok ((ls.map Prod.snd).flatten),
         ⟨s.data, s.pos + (Util.rleFramed ls).length⟩) := by
  induction ls with
  | nil =>
    intro s rest hall h
    simp [Util.decodeScanlines, Util.rleFramed, Pm.pure]
  | cons p ls ih =>
    intro s rest hall h
    obtain ⟨henc, hlen⟩ := hall p (List.mem_cons_self _ _)
    have hall2 : ∀ x ∈ ls, Util.PackBitsEncodes x.1 x.2 ∧ x.1.length < 65536 :=
      fun x hx => hall x (List.mem_cons_of_mem _ hx)
    have hshape : s.data.drop s.pos
        = u16be p.1.length ++ (p.1 ++ (Util.rleFramed ls ++ rest)) := by
      rw [h]
      simp [Util.rleFramed, List.append_assoc]
    have hstep : Util.decodeScanlines (p :: ls).length = (do
        let clen ← liftRead readU16
        let line ← Util.decodePackets clen
        let rest2 ← Util.decodeScanlines ls.length
        Pm.pure (line ++ rest2)) := rfl
    rw [hstep]
    refine Pm.run_bind (run_liftRead (readU16_u16be_drop hshape hlen)) ?_
    have hd1 : s.data.drop (s.pos + 2) = p.1 ++ (Util.rleFramed ls ++ rest) :=
      drop_after hshape (by simp [u16be])
    refine Pm.run_bind
      (decodePackets_encodes henc ⟨s.data, s.pos + 2⟩ (Util.rleFramed ls ++ rest) hd1) ?_
    have hd2 : s.data.drop (s.pos + 2 + p.1.length) = Util.rleFramed ls ++ rest :=
      drop_after hd1 rfl
    refine Pm.run_bind (ih ⟨s.data, s.pos + 2 + p.1.length⟩ rest hall2 hd2) ?_
    rw [show s.pos + (Util.rleFramed (p :: ls)).length
        = s.pos + 2 + p.1.length + (Util.rleFramed ls).length from by
      simp only [Util.rleFramed, List.map_cons, List.flatten_cons, List.length_append,
        u16be, List.length_cons, List.length_nil]
      omega]
    rfl

/-- C8: for every list of scanlines, each given with any standard PackBits
encoding of its raw bytes (control `c ≤ 127`: `c+1` literals; `c = 128`,
signed −128: no-op; signed negative `c`: `1 − (c − 256)` repeats) whose
packet stream fits its 16-bit length frame, decompressing the framed
stream via the shared codec with that scanline count and the total raw
byte count yields exactly the original concatenated bytes. -/
theorem claim_C8_packbits_roundtrip (ls : List (List Nat × List Nat))
    (s : ByteStream) (rest : List Nat)
    (hall : ∀ p ∈ ls, Util.PackBitsEncodes p.1 p.2 ∧ p.1.length < 65536)
    (h : s.data.drop s.pos = Util.rleFramed ls ++ rest) :
    Util.read_rle_data ls.length ((ls.map Prod.snd).flatten).length s
      = (.ok ((ls.map Prod.snd).flatten),
         ⟨s.data, s.pos + (Util.rleFramed ls).length⟩) := by
  unfold Util.read_rle_data
  refine Pm.run_bind (decodeScanlines_frames ls s rest hall h) ?_
  rw [if_pos rfl]
  rfl

/-- Witness for C8: two scanlines — `[7, 7, 7]` encoded as the repeat run
`254 7` (254 is −2 signed, giving 257 − 254 = 3 repetitions) and `[5]`
encoded as the literal run `0 5` — recovered exactly from their framed
compressed stream. -/
theorem claim_C8_witness :
    Util.read_rle_data 2 4 ⟨[0, 2, 254, 7, 0, 2, 0, 5, 9], 0⟩
      = (.ok [7, 7, 7, 5], ⟨[0, 2, 254, 7, 0, 2, 0, 5, 9], 8⟩) := by
  have henc1 : Util.PackBitsEncodes [254, 7] [7, 7, 7] := by
    have hc := Util.PackBitsEncodes.run 7 [] [] 254 (by omega) (by omega)
      Util.PackBitsEncodes.nil
    simpa using hc
  have henc2 : Util.PackBitsEncodes [0, 5] [5] := by
    have hc := Util.PackBitsEncodes.literal [5] [] [] 0 (by omega) (by simp)
      Util.PackBitsEncodes.nil
    simpa using hc
  have hmain := claim_C8_packbits_roundtrip [([254, 7], [7, 7, 7]), ([0, 5], [5])]
    ⟨[0, 2, 254, 7, 0, 2, 0, 5, 9], 0⟩ [9]
    (by
      intro p hp
      cases hp with
      | head => exact ⟨henc1, by decide⟩
      | tail _ hp2 =>
        cases hp2 with
        | head => exact ⟨henc2, by decide⟩
        | tail _ hp3 => cases hp3)
    (by decide)
  simpa [Util.rleFramed, u16be] using hmain
